import Mathlib

/-!
A shallow embedding of `src/db/postgres.rs` from the `shaft` repository: the
Postgres-backed storage layer of a shared-ledger application.  The database
state (tables `users`, `tokens`, `transactions`) is modelled as lists of rows;
each ledger operation of the `Database` implementation becomes a pure Lean
function over that state.  The happy path (connection-pool acquisition and SQL
execution succeed) is modelled by the pure operations; error plumbing of the
pool/query failure paths is modelled separately with explicit outcome
parameters.  SQL semantics are embedded directly: `WHERE` is `filter`,
`SUM` is a list sum, `GROUP BY` groups over deduplicated keys, `LEFT JOIN`
is an optional lookup with `COALESCE` defaulting, `ORDER BY` sorts, and
`LIMIT` is `take`.
-/

namespace Shaft

/-- Modelled from the spec: the domain `User` entity declared in `crate::db`
(`src/db/mod.rs` is not among the sources): user id, display name and the
derived (never stored) balance. -/
structure User where
  user_id : String
  display_name : String
  balance : Int
deriving Repr, DecidableEq

/-- Modelled from the spec: the domain `Transaction` entity declared in
`crate::db`: shafter, shaftee, signed amount, timestamp (second precision,
modelled as the epoch-second integer that `datetime.timestamp()` produces and
`chrono::Utc.timestamp(secs, 0)` round-trips) and a reason string. -/
structure Transaction where
  shafter : String
  shaftee : String
  amount : Int
  datetime : Int
  reason : String
deriving Repr, DecidableEq

/-- Modelled from the spec: the error type declared in `crate::db` with the
three snafu contexts used by `postgres.rs`: pool acquisition failure, backend
query failure (each carrying their source error, modelled as a string) and the
domain-level unknown-user condition carrying the offending user id. -/
inductive DatabaseError where
  | ConnectionPoolError (source : String)
  | PostgresError (source : String)
  | UnknownUser (user_id : String)
deriving Repr, DecidableEq

/-- A row of the `users` table: `users(user_id PRIMARY KEY, display_name)`. -/
structure UserRow where
  user_id : String
  display_name : String
deriving Repr, DecidableEq

/-- A row of the `tokens` table: `tokens(user_id, token)`. -/
structure TokenRow where
  user_id : String
  token : String
deriving Repr, DecidableEq

/-- A row of the `transactions` table:
`transactions(id SERIAL, shafter, shaftee, amount, time_sec, reason)`.
The `SERIAL` id is materialised explicitly so that `ORDER BY id DESC` can be
embedded faithfully. -/
structure TxnRow where
  id : Nat
  shafter : String
  shaftee : String
  amount : Int
  time_sec : Int
  reason : String
deriving Repr, DecidableEq

/-- The visible state of the relational backend: the three tables the ledger
operations touch, as lists of rows in insertion order, plus the next value of
the `transactions.id` sequence. -/
structure Db where
  users : List UserRow
  tokens : List TokenRow
  transactions : List TxnRow
  next_id : Nat
deriving Repr, DecidableEq

/-- `SELECT COALESCE(SUM(amount), 0) FROM transactions WHERE shafter = u`. -/
def sqlSumShafter (l : List TxnRow) (u : String) : Int :=
  ((l.filter (fun t => t.shafter = u)).map (fun t => t.amount)).sum

/-- `SELECT COALESCE(SUM(amount), 0) FROM transactions WHERE shaftee = u`. -/
def sqlSumShaftee (l : List TxnRow) (u : String) : Int :=
  ((l.filter (fun t => t.shaftee = u)).map (fun t => t.amount)).sum

/-- The spec's independent balance derivation, folded one transaction at a
time: each transaction credits its shafter with `amount` and debits its
shaftee with `amount`. -/
def specBalance (l : List TxnRow) (u : String) : Int :=
  l.foldr
    (fun t acc =>
      (if t.shafter = u then t.amount else 0) -
        (if t.shaftee = u then t.amount else 0) + acc)
    0

/-- `get_balance_for_user` (postgres.rs lines 187-217).  The SQL statement is
a scalar query `SELECT (sub) - (sub)` with no `FROM` clause, so it yields
exactly one row whatever the database contains; the embedding therefore
builds the singleton row list.  The code takes `.iter().next()` and maps a
missing row to `UnknownUser`, mirrored by the `head?` match. -/
def get_balance_for_user (db : Db) (user : String) : Except DatabaseError Int :=
  let rows : List Int :=
    [sqlSumShafter db.transactions user - sqlSumShaftee db.transactions user]
  match rows.head? with
  | some b => Except.ok b
  | none => Except.error (DatabaseError.UnknownUser user)

theorem specBalance_eq (l : List TxnRow) (u : String) :
    specBalance l u = sqlSumShafter l u - sqlSumShaftee l u := by
  induction l with
  | nil => simp [specBalance, sqlSumShafter, sqlSumShaftee]
  | cons t l ih =>
    simp only [specBalance, List.foldr_cons] at *
    simp only [sqlSumShafter, sqlSumShaftee, List.filter_cons] at *
    by_cases h1 : t.shafter = u <;> by_cases h2 : t.shaftee = u <;>
      simp [h1, h2, ih] <;> ring

/-- C2: for an existing user, `get_balance_for_user` returns the difference of
the two ledger sums, and a user appearing in no transaction gets balance 0. -/
theorem get_balance_for_user_correct (db : Db) (u : String)
    (_h : ∃ dn, ({ user_id := u, display_name := dn } : UserRow) ∈ db.users) :
    get_balance_for_user db u = Except.ok (specBalance db.transactions u) ∧
      ((∀ t ∈ db.transactions, t.shafter ≠ u ∧ t.shaftee ≠ u) →
        get_balance_for_user db u = Except.ok 0) := by
  constructor
  · simp [get_balance_for_user, specBalance_eq]
  · intro hnone
    have h1 : sqlSumShafter db.transactions u = 0 := by
      have : db.transactions.filter (fun t => t.shafter = u) = [] := by
        simp only [List.filter_eq_nil_iff, decide_eq_true_eq]
        intro t ht
        exact (hnone t ht).1
      simp [sqlSumShafter, this]
    have h2 : sqlSumShaftee db.transactions u = 0 := by
      have : db.transactions.filter (fun t => t.shaftee = u) = [] := by
        simp only [List.filter_eq_nil_iff, decide_eq_true_eq]
        intro t ht
        exact (hnone t ht).2
      simp [sqlSumShaftee, this]
    simp [get_balance_for_user, h1, h2]

/-- A concrete database for exercising the balance lookup: one registered
user `alice`, and one transaction whose shafter `ghost` has no row in
`users`. -/
def dbGhost : Db :=
  { users := [{ user_id := "alice", display_name := "Alice" }]
    tokens := []
    transactions :=
      [{ id := 0, shafter := "ghost", shaftee := "alice", amount := 5,
         time_sec := 0, reason := "r" }]
    next_id := 1 }

/-- C1: `ghost` has no row in the users table, yet `get_balance_for_user`
returns an integer balance (`Ok 5`) instead of the `UnknownUser` failure: the
scalar `SELECT` always yields one row, so the `ok_or_else(UnknownUser)`
branch is unreachable. -/
theorem get_balance_unknown_user_not_reported :
    (∀ ur ∈ dbGhost.users, ur.user_id ≠ "ghost") ∧
      get_balance_for_user dbGhost "ghost" = Except.ok 5 := by
  constructor
  · decide
  · rfl

/-- Witness for C2 at a concrete database. -/
theorem get_balance_for_user_correct_witness :
    (∃ dn, ({ user_id := "alice", display_name := dn } : UserRow) ∈ dbGhost.users) ∧
      (get_balance_for_user dbGhost "alice" =
          Except.ok (specBalance dbGhost.transactions "alice") ∧
        ((∀ t ∈ dbGhost.transactions, t.shafter ≠ "alice" ∧ t.shaftee ≠ "alice") →
          get_balance_for_user dbGhost "alice" = Except.ok 0)) :=
  ⟨⟨"Alice", by decide⟩,
    get_balance_for_user_correct dbGhost "alice" ⟨"Alice", by decide⟩⟩

/-- `SELECT shafter AS user_id, SUM(amount) FROM transactions GROUP BY
shafter`: one row per distinct shafter, carrying that shafter's sum. -/
def shafterGroups (l : List TxnRow) : List (String × Int) :=
  (l.map (fun t => t.shafter)).dedup.map (fun u => (u, sqlSumShafter l u))

/-- `SELECT shaftee AS user_id, -SUM(amount) FROM transactions GROUP BY
shaftee`: one row per distinct shaftee, carrying the negated sum. -/
def shafteeGroups (l : List TxnRow) : List (String × Int) :=
  (l.map (fun t => t.shaftee)).dedup.map (fun u => (u, - sqlSumShaftee l u))

/-- The `UNION ALL` of the two grouped subqueries. -/
def unionAllGroups (l : List TxnRow) : List (String × Int) :=
  shafterGroups l ++ shafteeGroups l

/-- `SELECT user_id, SUM(amount) FROM (...) t GROUP BY user_id`: group the
rows by key and sum the values of each group. -/
def regroup (rows : List (String × Int)) : List (String × Int) :=
  (rows.map Prod.fst).dedup.map
    (fun k => (k, ((rows.filter (fun r => r.1 = k)).map Prod.snd).sum))

/-- The balance subquery shared verbatim by `get_user_from_token` and
`get_all_users`: per-user net balances derived from the transaction log. -/
def balanceSubquery (l : List TxnRow) : List (String × Int) :=
  regroup (unionAllGroups l)

/-- `LEFT JOIN (balance subquery) USING (user_id)` followed by
`COALESCE(balance, 0)`: look the user up in the subquery result and default
a missing row to 0. -/
def joinedBalance (l : List TxnRow) (u : String) : Int :=
  match (balanceSubquery l).lookup u with
  | some b => b
  | none => 0

theorem lookup_keyed_map (u : String) (ks : List String) (f : String → Int) :
    (ks.map (fun k => (k, f k))).lookup u = if u ∈ ks then some (f u) else none := by
  induction ks with
  | nil => simp
  | cons k ks ih =>
    by_cases h : u = k
    · subst h
      simp [List.lookup]
    · have hbeq : (u == k) = false := by
        simp [h]
      simp [List.lookup, hbeq, ih, h]

theorem filter_keyed_map_of_nodup (u : String) (ks : List String)
    (f : String → Int) (hnd : ks.Nodup) :
    (ks.map (fun k => (k, f k))).filter (fun r => r.1 = u) =
      if u ∈ ks then [(u, f u)] else [] := by
  induction ks with
  | nil => simp
  | cons k ks ih =>
    have hk : k ∉ ks := (List.nodup_cons.mp hnd).1
    have hnd' : ks.Nodup := (List.nodup_cons.mp hnd).2
    by_cases h : k = u
    · subst h
      simp [List.filter_cons, ih hnd', hk]
    · have hu : (u = k) = False := eq_false fun he => h he.symm
      simp [List.filter_cons, h, ih hnd', hu]

theorem sqlSumShafter_eq_zero {l : List TxnRow} {u : String}
    (h : u ∉ l.map (fun t => t.shafter)) : sqlSumShafter l u = 0 := by
  have hf : l.filter (fun t => t.shafter = u) = [] := by
    simp only [List.filter_eq_nil_iff, decide_eq_true_eq]
    intro t ht heq
    exact h (List.mem_map.mpr ⟨t, ht, heq⟩)
  simp [sqlSumShafter, hf]

theorem sqlSumShaftee_eq_zero {l : List TxnRow} {u : String}
    (h : u ∉ l.map (fun t => t.shaftee)) : sqlSumShaftee l u = 0 := by
  have hf : l.filter (fun t => t.shaftee = u) = [] := by
    simp only [List.filter_eq_nil_iff, decide_eq_true_eq]
    intro t ht heq
    exact h (List.mem_map.mpr ⟨t, ht, heq⟩)
  simp [sqlSumShaftee, hf]

theorem regroup_lookup (rows : List (String × Int)) (u : String) :
    (regroup rows).lookup u =
      if u ∈ rows.map Prod.fst
      then some (((rows.filter (fun r => r.1 = u)).map Prod.snd).sum)
      else none := by
  unfold regroup
  rw [lookup_keyed_map]
  simp only [List.mem_dedup]

theorem shafterGroups_filter (l : List TxnRow) (u : String) :
    (shafterGroups l).filter (fun r => r.1 = u) =
      if u ∈ l.map (fun t => t.shafter) then [(u, sqlSumShafter l u)] else [] := by
  unfold shafterGroups
  rw [filter_keyed_map_of_nodup _ _ _ (List.nodup_dedup _)]
  simp [List.mem_dedup]

theorem shafteeGroups_filter (l : List TxnRow) (u : String) :
    (shafteeGroups l).filter (fun r => r.1 = u) =
      if u ∈ l.map (fun t => t.shaftee) then [(u, - sqlSumShaftee l u)] else [] := by
  unfold shafteeGroups
  rw [filter_keyed_map_of_nodup _ _ _ (List.nodup_dedup _)]
  simp [List.mem_dedup]

theorem unionAllGroups_keys (l : List TxnRow) :
    (unionAllGroups l).map Prod.fst =
      (l.map (fun t => t.shafter)).dedup ++ (l.map (fun t => t.shaftee)).dedup := by
  simp [unionAllGroups, shafterGroups, shafteeGroups, List.map_map, Function.comp_def]

/-- The grouped-and-joined balance of the join queries coincides with the
direct difference of the two ledger sums, for every user and every ledger. -/
theorem joinedBalance_eq (l : List TxnRow) (u : String) :
    joinedBalance l u = sqlSumShafter l u - sqlSumShaftee l u := by
  unfold joinedBalance balanceSubquery
  rw [regroup_lookup, unionAllGroups_keys]
  rw [unionAllGroups, List.filter_append, shafterGroups_filter, shafteeGroups_filter]
  by_cases h1 : u ∈ l.map (fun t => t.shafter) <;>
    by_cases h2 : u ∈ l.map (fun t => t.shaftee)
  · simp [h1, h2]
    ring
  · simp [h1, h2, sqlSumShaftee_eq_zero h2]
  · simp [h1, h2, sqlSumShafter_eq_zero h1]
  · simp [h1, h2, sqlSumShafter_eq_zero h1, sqlSumShaftee_eq_zero h2]

/-- The 62-character charset that rand's `Alphanumeric` distribution draws
from. -/
def ALPHANUMERIC_CHARSET : List Char :=
  "ABCDEFGHIJKLMNOPQRSTUVWXYZabcdefghijklmnopqrstuvwxyz0123456789".toList

/-- One draw from the `Alphanumeric` distribution, fed by the raw random
value `r`: an index into the 62-character charset. -/
def sampleAlphanumeric (r : Nat) : Char :=
  ALPHANUMERIC_CHARSET.getD (r % 62) 'A'

/-- `thread_rng().sample_iter(&Alphanumeric).take(32).collect()` from
`create_token_for_user`; the random source is modelled as a stream `rng` of
raw draws, one per position. -/
def genToken (rng : Nat → Nat) : String :=
  String.mk ((List.range 32).map (fun i => sampleAlphanumeric (rng i)))

/-- `create_token_for_user` (postgres.rs lines 101-123): generate a random
token, `INSERT INTO tokens (user_id, token)`, and return the token.  No
user-existence check happens here. -/
def create_token_for_user (db : Db) (user_id : String) (rng : Nat → Nat) :
    Db × Except DatabaseError String :=
  let token := genToken rng
  ({ db with tokens := db.tokens ++ [{ user_id := user_id, token := token }] },
    Except.ok token)

/-- `delete_token` (postgres.rs lines 125-139):
`DELETE FROM tokens WHERE token = $1`, succeeding whether or not any row
matched. -/
def delete_token (db : Db) (token : String) : Db × Except DatabaseError Unit :=
  ({ db with tokens := db.tokens.filter (fun tr => ¬ tr.token = token) },
    Except.ok ())

/-- The row of the `users` table matching a user id, if any (`INNER JOIN
users USING (user_id)` against a primary-key table). -/
def findUserRow (db : Db) (uid : String) : Option UserRow :=
  db.users.find? (fun ur => ur.user_id = uid)

/-- The rows produced by the `get_user_from_token` query: token rows matching
the token (`WHERE token = $1`), inner-joined with their users row, carrying
the left-joined coalesced balance. -/
def tokenJoinRows (db : Db) (token : String) : List User :=
  db.tokens.filterMap (fun tr =>
    if tr.token = token then
      (findUserRow db tr.user_id).map (fun ur =>
        { user_id := ur.user_id, display_name := ur.display_name,
          balance := joinedBalance db.transactions ur.user_id })
    else none)

/-- `get_user_from_token` (postgres.rs lines 141-185): run the join query and
take `.iter().next()` of the result. -/
def get_user_from_token (db : Db) (token : String) :
    Except DatabaseError (Option User) :=
  Except.ok (tokenJoinRows db token).head?

theorem find_user_eq {l : List UserRow} {uid dn : String}
    (hnd : (l.map (fun r => r.user_id)).Nodup)
    (hmem : ({ user_id := uid, display_name := dn } : UserRow) ∈ l) :
    l.find? (fun r => r.user_id = uid) =
      some { user_id := uid, display_name := dn } := by
  induction l with
  | nil => cases hmem
  | cons a l ih =>
    have ha : a.user_id ∉ l.map (fun r => r.user_id) :=
      (List.nodup_cons.mp (by simpa using hnd)).1
    have hnd' : (l.map (fun r => r.user_id)).Nodup :=
      (List.nodup_cons.mp (by simpa using hnd)).2
    by_cases h : a.user_id = uid
    · rw [List.find?_cons_of_pos _ (by simp [h])]
      rcases List.mem_cons.mp hmem with heq | htl
      · rw [heq]
      · have hin : a.user_id ∈ l.map (fun r => r.user_id) := by
          rw [h]
          exact List.mem_map.mpr ⟨_, htl, rfl⟩
        exact absurd hin ha
    · rw [List.find?_cons_of_neg _ (by simp [h])]
      rcases List.mem_cons.mp hmem with heq | htl
      · exact absurd (by rw [← heq]) h
      · exact ih hnd' htl

theorem filterMap_token_nil {db : Db} {trs : List TokenRow} {token : String}
    (h : ∀ tr ∈ trs, tr.token ≠ token) :
    trs.filterMap (fun tr =>
      if tr.token = token then
        (findUserRow db tr.user_id).map (fun ur =>
          ({ user_id := ur.user_id, display_name := ur.display_name,
             balance := joinedBalance db.transactions ur.user_id } : User))
      else none) = [] := by
  rw [List.filterMap_eq_nil_iff]
  intro tr htr
  simp [h tr htr]

theorem get_user_from_token_after_delete (db : Db) (token : String) :
    get_user_from_token (delete_token db token).1 token = Except.ok none := by
  unfold get_user_from_token delete_token tokenJoinRows
  rw [filterMap_token_nil]
  · rfl
  · intro tr htr
    have h2 := List.mem_filter.mp htr
    simpa using h2.2

theorem delete_token_idem (db : Db) (token : String) :
    delete_token (delete_token db token).1 token = delete_token db token := by
  unfold delete_token
  simp [List.filter_filter]

/-- The `User` entity the spec expects an authenticated lookup for `uid` to
produce: the user's row data paired with the spec's derived balance. -/
def specUserOf (db : Db) (uid dn : String) : User :=
  { user_id := uid, display_name := dn,
    balance := sqlSumShafter db.transactions uid - sqlSumShaftee db.transactions uid }

/-- C7: issuing a token for an existing user then authenticating it returns
that user with the derived balance; after revoking the token, authentication
returns none; and revoking is idempotent (revoking twice equals revoking
once). -/
theorem token_lifecycle (db : Db) (uid dn : String) (rng : Nat → Nat)
    (hnd : (db.users.map (fun r => r.user_id)).Nodup)
    (hmem : ({ user_id := uid, display_name := dn } : UserRow) ∈ db.users)
    (hfresh : ∀ tr ∈ db.tokens, tr.token ≠ genToken rng) :
    (create_token_for_user db uid rng).2 = Except.ok (genToken rng) ∧
    get_user_from_token (create_token_for_user db uid rng).1 (genToken rng) =
      Except.ok (some (specUserOf db uid dn)) ∧
    get_user_from_token
        (delete_token (create_token_for_user db uid rng).1 (genToken rng)).1
        (genToken rng) = Except.ok none ∧
    delete_token
        (delete_token (create_token_for_user db uid rng).1 (genToken rng)).1
        (genToken rng) =
      delete_token (create_token_for_user db uid rng).1 (genToken rng) := by
  refine ⟨rfl, ?_, get_user_from_token_after_delete _ _, delete_token_idem _ _⟩
  unfold get_user_from_token create_token_for_user tokenJoinRows
  rw [List.filterMap_append, filterMap_token_nil hfresh]
  simp only [List.nil_append, List.filterMap_cons, List.filterMap_nil, if_pos rfl]
  unfold findUserRow
  rw [find_user_eq hnd hmem]
  simp [joinedBalance_eq, specUserOf]

/-- Witness for C7 at a concrete database and a constant random stream. -/
theorem token_lifecycle_witness :
    ((dbGhost.users.map (fun r => r.user_id)).Nodup ∧
      ({ user_id := "alice", display_name := "Alice" } : UserRow) ∈ dbGhost.users ∧
      (∀ tr ∈ dbGhost.tokens, tr.token ≠ genToken (fun _ => 0))) ∧
    ((create_token_for_user dbGhost "alice" (fun _ => 0)).2 =
        Except.ok (genToken (fun _ => 0)) ∧
      get_user_from_token (create_token_for_user dbGhost "alice" (fun _ => 0)).1
          (genToken (fun _ => 0)) =
        Except.ok (some (specUserOf dbGhost "alice" "Alice")) ∧
      get_user_from_token
          (delete_token (create_token_for_user dbGhost "alice" (fun _ => 0)).1
            (genToken (fun _ => 0))).1 (genToken (fun _ => 0)) =
        Except.ok none ∧
      delete_token
          (delete_token (create_token_for_user dbGhost "alice" (fun _ => 0)).1
            (genToken (fun _ => 0))).1 (genToken (fun _ => 0)) =
        delete_token (create_token_for_user dbGhost "alice" (fun _ => 0)).1
          (genToken (fun _ => 0))) :=
  ⟨⟨by decide, by decide, by decide⟩,
    token_lifecycle dbGhost "alice" "Alice" (fun _ => 0) (by decide) (by decide)
      (by decide)⟩

theorem sampleAlphanumeric_mem (r : Nat) :
    sampleAlphanumeric r ∈ ALPHANUMERIC_CHARSET := by
  unfold sampleAlphanumeric
  have h : r % 62 < ALPHANUMERIC_CHARSET.length := by
    have hlen : ALPHANUMERIC_CHARSET.length = 62 := rfl
    rw [hlen]
    exact Nat.mod_lt _ (by norm_num)
  rw [List.getD_eq_getElem _ _ h]
  exact List.getElem_mem h

/-- C10: for every user id and every outcome of the random source, the token
returned by `create_token_for_user` is the generated random string: exactly
32 characters, each from the alphanumeric charset. -/
theorem token_format (db : Db) (uid : String) (rng : Nat → Nat) :
    (create_token_for_user db uid rng).2 = Except.ok (genToken rng) ∧
    (genToken rng).length = 32 ∧
    ∀ c ∈ (genToken rng).toList, c ∈ ALPHANUMERIC_CHARSET := by
  refine ⟨rfl, ?_, ?_⟩
  · show ((List.range 32).map (fun i => sampleAlphanumeric (rng i))).length = 32
    simp
  · intro c hc
    have hc2 : c ∈ (List.range 32).map (fun i => sampleAlphanumeric (rng i)) := hc
    obtain ⟨i, _, hi⟩ := List.mem_map.mp hc2
    rw [← hi]
    exact sampleAlphanumeric_mem _

/-- The `transactions` row inserted by `shaft_user` for a domain transaction:
the next serial id, the transaction's fields, and `datetime.timestamp()`
stored as `time_sec`. -/
def txnRowOf (db : Db) (t : Transaction) : TxnRow :=
  { id := db.next_id, shafter := t.shafter, shaftee := t.shaftee,
    amount := t.amount, time_sec := t.datetime, reason := t.reason }

/-- `shaft_user` (postgres.rs lines 268-312): count the `users` rows matching
the shaftee; if none, fail with `UnknownUser` naming the shaftee before any
insert; otherwise insert the transaction row. -/
def shaft_user (db : Db) (t : Transaction) : Db × Except DatabaseError Unit :=
  let user_exists := (db.users.filter (fun ur => ur.user_id = t.shaftee)).length
  if user_exists = 0 then
    (db, Except.error (DatabaseError.UnknownUser t.shaftee))
  else
    ({ db with
        transactions := db.transactions ++ [txnRowOf db t],
        next_id := db.next_id + 1 },
      Except.ok ())

/-- C5: recording a transaction whose shaftee has no row in `users` fails
with `UnknownUser` naming the shaftee, and leaves the database — in
particular the `transactions` table — unchanged. -/
theorem shaft_user_unknown_shaftee (db : Db) (t : Transaction)
    (h : ∀ ur ∈ db.users, ur.user_id ≠ t.shaftee) :
    shaft_user db t = (db, Except.error (DatabaseError.UnknownUser t.shaftee)) ∧
    (shaft_user db t).1.transactions = db.transactions := by
  have hf : db.users.filter (fun ur => ur.user_id = t.shaftee) = [] := by
    simp only [List.filter_eq_nil_iff, decide_eq_true_eq]
    exact h
  constructor <;> simp [shaft_user, hf]

/-- Witness for C5: shafting the unregistered user `ghost`. -/
theorem shaft_user_unknown_shaftee_witness :
    (∀ ur ∈ dbGhost.users,
      ur.user_id ≠
        (⟨"alice", "ghost", 7, 100, "beer"⟩ : Transaction).shaftee) ∧
    (shaft_user dbGhost ⟨"alice", "ghost", 7, 100, "beer"⟩ =
        (dbGhost,
          Except.error (DatabaseError.UnknownUser
            (⟨"alice", "ghost", 7, 100, "beer"⟩ : Transaction).shaftee)) ∧
      (shaft_user dbGhost ⟨"alice", "ghost", 7, 100, "beer"⟩).1.transactions =
        dbGhost.transactions) :=
  ⟨by decide,
    shaft_user_unknown_shaftee dbGhost ⟨"alice", "ghost", 7, 100, "beer"⟩
      (by decide)⟩

/-- C8: recording a transaction whose shaftee exists inserts the transaction
row and succeeds; no condition on the shafter is required. -/
theorem shaft_user_inserts (db : Db) (t : Transaction)
    (h : ∃ ur ∈ db.users, ur.user_id = t.shaftee) :
    shaft_user db t =
      ({ db with
          transactions := db.transactions ++ [txnRowOf db t],
          next_id := db.next_id + 1 },
        Except.ok ()) := by
  obtain ⟨ur, hmem, heq⟩ := h
  have hmem2 : ur ∈ db.users.filter (fun r => r.user_id = t.shaftee) :=
    List.mem_filter.mpr ⟨hmem, by simp [heq]⟩
  have hne : (db.users.filter (fun r => r.user_id = t.shaftee)).length ≠ 0 := by
    intro h0
    rw [List.length_eq_zero] at h0
    rw [h0] at hmem2
    cases hmem2
  simp [shaft_user, hne]

/-- Witness for C8: the shaftee `alice` exists while the shafter `nobody`
does not, and the insert still happens. -/
theorem shaft_user_inserts_witness :
    (∃ ur ∈ dbGhost.users,
      ur.user_id = (⟨"nobody", "alice", 7, 100, "beer"⟩ : Transaction).shaftee) ∧
    (∀ ur ∈ dbGhost.users,
      ur.user_id ≠ (⟨"nobody", "alice", 7, 100, "beer"⟩ : Transaction).shafter) ∧
    shaft_user dbGhost ⟨"nobody", "alice", 7, 100, "beer"⟩ =
      ({ dbGhost with
          transactions :=
            dbGhost.transactions ++
              [txnRowOf dbGhost ⟨"nobody", "alice", 7, 100, "beer"⟩],
          next_id := dbGhost.next_id + 1 },
        Except.ok ()) :=
  ⟨by decide, by decide,
    shaft_user_inserts dbGhost ⟨"nobody", "alice", 7, 100, "beer"⟩ (by decide)⟩

/-- The domain `Transaction` read back from a stored row
(`chrono::Utc.timestamp(time_sec, 0)` restores the second-precision
datetime). -/
def rowToTransaction (r : TxnRow) : Transaction :=
  { shafter := r.shafter, shaftee := r.shaftee, amount := r.amount,
    datetime := r.time_sec, reason := r.reason }

/-- The `ORDER BY id DESC` comparison on transaction rows. -/
def idDesc (a b : TxnRow) : Prop := b.id ≤ a.id

instance : DecidableRel idDesc := fun a b => Nat.decLe b.id a.id

/-- `get_last_transactions` (postgres.rs lines 314-348):
`SELECT ... FROM transactions ORDER BY id DESC LIMIT $1`, mapping each row
back to a domain transaction. -/
def get_last_transactions (db : Db) (limit : Nat) :
    Except DatabaseError (List Transaction) :=
  Except.ok
    (((db.transactions.insertionSort idDesc).take limit).map rowToTransaction)

theorem orderedInsert_eq_append {r : TxnRow → TxnRow → Prop} [DecidableRel r]
    (a : TxnRow) (l : List TxnRow) (h : ∀ b ∈ l, ¬ r a b) :
    l.orderedInsert r a = l ++ [a] := by
  induction l with
  | nil => rfl
  | cons b l ih =>
    simp only [List.orderedInsert]
    rw [if_neg (h b (List.mem_cons_self b l))]
    rw [ih (fun x hx => h x (List.mem_cons_of_mem _ hx))]
    rfl

/-- On a ledger whose serial ids strictly increase along the insertion order,
sorting by `id DESC` produces exactly the reversed ledger. -/
theorem insertionSort_idDesc_eq_reverse (l : List TxnRow)
    (h : l.Pairwise (fun a b => a.id < b.id)) :
    l.insertionSort idDesc = l.reverse := by
  induction l with
  | nil => rfl
  | cons a l ih =>
    have ha : ∀ b ∈ l, a.id < b.id := (List.pairwise_cons.mp h).1
    have h2 : l.Pairwise (fun a b => a.id < b.id) := (List.pairwise_cons.mp h).2
    simp only [List.insertionSort]
    rw [ih h2, orderedInsert_eq_append]
    · simp
    · intro b hb
      rw [List.mem_reverse] at hb
      have hab := ha b hb
      simp only [idDesc]
      omega

/-- C9: on any reachable ledger (serial ids strictly increasing),
`get_last_transactions` returns at most `limit` transactions, and the result
is exactly the most-recent-first prefix of the reversed ledger. -/
theorem get_last_transactions_spec (db : Db) (limit : Nat)
    (h : db.transactions.Pairwise (fun a b => a.id < b.id)) :
    get_last_transactions db limit =
      Except.ok ((db.transactions.reverse.take limit).map rowToTransaction) ∧
    ((db.transactions.reverse.take limit).map rowToTransaction).length ≤ limit := by
  constructor
  · unfold get_last_transactions
    rw [insertionSort_idDesc_eq_reverse _ h]
  · rw [List.length_map, List.length_take]
    exact Nat.min_le_left _ _

/-- The invariant every reachable database satisfies: serial transaction ids
strictly increase along insertion order and stay below the next sequence
value. -/
def SerialInvariant (db : Db) : Prop :=
  db.transactions.Pairwise (fun a b => a.id < b.id) ∧
  ∀ r ∈ db.transactions, r.id < db.next_id

/-- `shaft_user` preserves the serial-id invariant, so the hypothesis of the
`get_last_transactions` ordering theorem holds of every reachable ledger. -/
theorem shaft_user_preserves_serial (db : Db) (t : Transaction)
    (h : SerialInvariant db) : SerialInvariant (shaft_user db t).1 := by
  unfold shaft_user
  by_cases hc : (db.users.filter (fun ur => ur.user_id = t.shaftee)).length = 0
  · simpa [hc] using h
  · simp only [hc, ite_false]
    refine ⟨?_, ?_⟩
    · refine List.pairwise_append.mpr ⟨h.1, List.pairwise_singleton _ _, ?_⟩
      intro a ha b hb
      rw [List.mem_singleton] at hb
      subst hb
      exact h.2 a ha
    · intro r hr
      rcases List.mem_append.mp hr with h1 | h1
      · exact Nat.lt_succ_of_lt (h.2 r h1)
      · rw [List.mem_singleton] at h1
        subst h1
        exact Nat.lt_succ_self _

/-- A concrete two-transaction ledger used by several witnesses. -/
def dbTwoTxns : Db :=
  { users :=
      [{ user_id := "alice", display_name := "Alice" },
        { user_id := "bob", display_name := "Bob" }]
    tokens := [{ user_id := "alice", token := "tokA" }]
    transactions :=
      [{ id := 0, shafter := "alice", shaftee := "bob", amount := 500,
         time_sec := 10, reason := "x" },
        { id := 1, shafter := "bob", shaftee := "alice", amount := 200,
          time_sec := 20, reason := "y" }]
    next_id := 2 }

/-- Witness for C9 at the two-transaction ledger with limit 1. -/
theorem get_last_transactions_spec_witness :
    dbTwoTxns.transactions.Pairwise (fun a b => a.id < b.id) ∧
    (get_last_transactions dbTwoTxns 1 =
        Except.ok
          ((dbTwoTxns.transactions.reverse.take 1).map rowToTransaction) ∧
      ((dbTwoTxns.transactions.reverse.take 1).map rowToTransaction).length ≤ 1) :=
  ⟨by decide, get_last_transactions_spec dbTwoTxns 1 (by decide)⟩

/-- The `ORDER BY balance ASC` comparison on joined user rows. -/
def balLe (a b : User) : Prop := a.balance ≤ b.balance

instance : DecidableRel balLe := fun a b => Int.decLe a.balance b.balance

instance : IsTotal User balLe := ⟨fun a b => Int.le_total a.balance b.balance⟩

instance : IsTrans User balLe := ⟨fun _ _ _ hab hbc => le_trans hab hbc⟩

/-- The rows of the `get_all_users` query before ordering: every `users` row
left-joined with its coalesced derived balance. -/
def userBalanceRows (db : Db) : List User :=
  db.users.map (fun ur =>
    { user_id := ur.user_id, display_name := ur.display_name,
      balance := joinedBalance db.transactions ur.user_id })

/-- The full `get_all_users` query result: the joined rows in ascending
balance order. -/
def all_users_query (db : Db) : List User :=
  (userBalanceRows db).insertionSort balLe

/-- `LinearMap::insert` of the linear_map crate: replace the value of an
existing key in place, otherwise push the pair at the end. -/
def linearInsert (m : List (String × User)) (k : String) (v : User) :
    List (String × User) :=
  match m with
  | [] => [(k, v)]
  | (k2, v2) :: rest =>
    if k2 = k then (k, v) :: rest else (k2, v2) :: linearInsert rest k v

/-- `collect::<LinearMap<_, _>>()`: insert the pairs one by one, in iteration
order, starting from the empty map. -/
def linearCollect (rows : List (String × User)) : List (String × User) :=
  rows.foldl (fun m r => linearInsert m r.1 r.2) []

/-- `get_all_users` (postgres.rs lines 219-266): run the ordered query, pair
every row with its user id, and collect into a `LinearMap`. -/
def get_all_users (db : Db) : Except DatabaseError (List (String × User)) :=
  Except.ok (linearCollect ((all_users_query db).map (fun u => (u.user_id, u))))

theorem linearInsert_of_not_mem {m : List (String × User)} {k : String}
    {v : User} (h : k ∉ m.map Prod.fst) : linearInsert m k v = m ++ [(k, v)] := by
  induction m with
  | nil => rfl
  | cons a m ih =>
    simp only [List.map_cons, List.mem_cons] at h
    push_neg at h
    simp only [linearInsert]
    rw [if_neg (fun he => h.1 he.symm), ih h.2]
    rfl

theorem linearCollect_go (rows : List (String × User)) :
    ∀ acc : List (String × User),
      (acc.map Prod.fst ++ rows.map Prod.fst).Nodup →
      rows.foldl (fun m r => linearInsert m r.1 r.2) acc = acc ++ rows := by
  induction rows with
  | nil =>
    intro acc _
    simp
  | cons r rows ih =>
    intro acc hacc
    have hr : r.1 ∉ acc.map Prod.fst := by
      intro hin
      exact (List.nodup_append.mp hacc).2.2 hin (List.mem_cons_self _ _)
    simp only [List.foldl_cons]
    rw [linearInsert_of_not_mem hr]
    have hacc2 : ((acc ++ [(r.1, r.2)]).map Prod.fst ++
        rows.map Prod.fst).Nodup := by
      simpa [List.append_assoc] using hacc
    rw [ih (acc ++ [(r.1, r.2)]) hacc2]
    simp

theorem linearCollect_eq_self {rows : List (String × User)}
    (h : (rows.map Prod.fst).Nodup) : linearCollect rows = rows := by
  simpa using linearCollect_go rows [] (by simpa using h)

theorem pair_keys_eq (l : List User) :
    (l.map (fun u => (u.user_id, u))).map Prod.fst = l.map (fun u => u.user_id) := by
  rw [List.map_map]
  rfl

theorem all_users_keys_perm (db : Db) :
    List.Perm (((all_users_query db).map (fun u => (u.user_id, u))).map Prod.fst)
      (db.users.map (fun r => r.user_id)) := by
  rw [pair_keys_eq]
  have h1 : List.Perm ((all_users_query db).map (fun u => u.user_id))
      ((userBalanceRows db).map (fun u => u.user_id)) :=
    (List.perm_insertionSort balLe _).map _
  have h2 : (userBalanceRows db).map (fun u => u.user_id) =
      db.users.map (fun r => r.user_id) := by
    simp [userBalanceRows, List.map_map, Function.comp_def]
  rw [h2] at h1
  exact h1

/-- C4: under the primary-key invariant (distinct user ids), `get_all_users`
returns the ordered query rows unchanged (the order-preserving map does not
reorder them); the keys are exactly the users, each exactly once; the rows
are in non-decreasing balance order; and every row carries its key and its
derived balance. -/
theorem get_all_users_spec (db : Db)
    (hnd : (db.users.map (fun r => r.user_id)).Nodup) :
    get_all_users db =
      Except.ok ((all_users_query db).map (fun u => (u.user_id, u))) ∧
    List.Perm (((all_users_query db).map (fun u => (u.user_id, u))).map Prod.fst)
      (db.users.map (fun r => r.user_id)) ∧
    (((all_users_query db).map (fun u => (u.user_id, u))).map Prod.fst).Nodup ∧
    List.Sorted (fun a b : String × User => a.2.balance ≤ b.2.balance)
      ((all_users_query db).map (fun u => (u.user_id, u))) ∧
    ∀ p ∈ (all_users_query db).map (fun u => (u.user_id, u)),
      p.1 = p.2.user_id ∧
      p.2.balance =
        sqlSumShafter db.transactions p.1 - sqlSumShaftee db.transactions p.1 := by
  have hperm := all_users_keys_perm db
  have hkeys : (((all_users_query db).map
      (fun u => (u.user_id, u))).map Prod.fst).Nodup :=
    hperm.symm.nodup hnd
  refine ⟨?_, hperm, hkeys, ?_, ?_⟩
  · unfold get_all_users
    rw [linearCollect_eq_self hkeys]
  · refine List.pairwise_map.mpr ?_
    exact List.sorted_insertionSort balLe (userBalanceRows db)
  · intro p hp
    obtain ⟨u, hu, hpu⟩ := List.mem_map.mp hp
    have hu2 : u ∈ userBalanceRows db :=
      (List.perm_insertionSort balLe (userBalanceRows db)).subset hu
    obtain ⟨ur, _, hmk⟩ := List.mem_map.mp hu2
    rw [← hpu, ← hmk]
    exact ⟨rfl, joinedBalance_eq _ _⟩

/-- Witness for C4 at the two-transaction ledger. -/
theorem get_all_users_spec_witness :
    (dbTwoTxns.users.map (fun r => r.user_id)).Nodup ∧
    (get_all_users dbTwoTxns =
        Except.ok
          ((all_users_query dbTwoTxns).map (fun u => (u.user_id, u))) ∧
      List.Perm
        (((all_users_query dbTwoTxns).map (fun u => (u.user_id, u))).map Prod.fst)
        (dbTwoTxns.users.map (fun r => r.user_id)) ∧
      (((all_users_query dbTwoTxns).map
          (fun u => (u.user_id, u))).map Prod.fst).Nodup ∧
      List.Sorted (fun a b : String × User => a.2.balance ≤ b.2.balance)
        ((all_users_query dbTwoTxns).map (fun u => (u.user_id, u))) ∧
      ∀ p ∈ (all_users_query dbTwoTxns).map (fun u => (u.user_id, u)),
        p.1 = p.2.user_id ∧
        p.2.balance =
          sqlSumShafter dbTwoTxns.transactions p.1 -
            sqlSumShaftee dbTwoTxns.transactions p.1) :=
  ⟨by decide, get_all_users_spec dbTwoTxns (by decide)⟩

theorem specUser_mem_query {db : Db} {uid dn : String}
    (hmem : ({ user_id := uid, display_name := dn } : UserRow) ∈ db.users) :
    specUserOf db uid dn ∈ all_users_query db := by
  have h1 : specUserOf db uid dn ∈ userBalanceRows db := by
    refine List.mem_map.mpr ⟨_, hmem, ?_⟩
    simp [specUserOf, joinedBalance_eq]
  exact (List.perm_insertionSort balLe (userBalanceRows db)).symm.subset h1

theorem tokenScan_head {db : Db} {uid dn tok : String}
    (trs : List TokenRow)
    (hfind : findUserRow db uid = some { user_id := uid, display_name := dn })
    (htok : ({ user_id := uid, token := tok } : TokenRow) ∈ trs)
    (huniq : ∀ tr ∈ trs, tr.token = tok →
      tr = { user_id := uid, token := tok }) :
    (trs.filterMap (fun tr =>
      if tr.token = tok then
        (findUserRow db tr.user_id).map (fun ur =>
          ({ user_id := ur.user_id, display_name := ur.display_name,
             balance := joinedBalance db.transactions ur.user_id } : User))
      else none)).head? =
      some { user_id := uid, display_name := dn,
             balance := joinedBalance db.transactions uid } := by
  induction trs with
  | nil => cases htok
  | cons tr trs ih =>
    by_cases h : tr.token = tok
    · have heq : tr = { user_id := uid, token := tok } :=
        huniq tr (List.mem_cons_self _ _) h
      subst heq
      simp [List.filterMap_cons, hfind]
    · have htok2 : ({ user_id := uid, token := tok } : TokenRow) ∈ trs := by
        rcases List.mem_cons.mp htok with heq | htl
        · exact absurd (by rw [← heq]) h
        · exact htl
      have huniq2 : ∀ tr2 ∈ trs, tr2.token = tok →
          tr2 = ({ user_id := uid, token := tok } : TokenRow) :=
        fun tr2 h2 => huniq tr2 (List.mem_cons_of_mem _ h2)
      simp only [List.filterMap_cons, if_neg h]
      exact ih htok2 huniq2

/-- C3: the three places a balance is reported — the single-user lookup, the
bulk listing, and token authentication — all derive the same value,
`sum_as_shafter - sum_as_shaftee`, for a registered user with a unique
token. -/
theorem balance_consistency (db : Db) (uid dn tok : String)
    (hnd : (db.users.map (fun r => r.user_id)).Nodup)
    (hmem : ({ user_id := uid, display_name := dn } : UserRow) ∈ db.users)
    (htok : ({ user_id := uid, token := tok } : TokenRow) ∈ db.tokens)
    (huniq : ∀ tr ∈ db.tokens, tr.token = tok →
      tr = { user_id := uid, token := tok }) :
    get_balance_for_user db uid = Except.ok (specUserOf db uid dn).balance ∧
    (∀ res, get_all_users db = Except.ok res →
      (uid, specUserOf db uid dn) ∈ res) ∧
    get_user_from_token db tok = Except.ok (some (specUserOf db uid dn)) := by
  refine ⟨rfl, ?_, ?_⟩
  · intro res hres
    have hperm := all_users_keys_perm db
    have hkeys := hperm.symm.nodup hnd
    unfold get_all_users at hres
    rw [linearCollect_eq_self hkeys] at hres
    have hres2 : res = (all_users_query db).map (fun u => (u.user_id, u)) :=
      (Except.ok.injEq _ _ ▸ hres).symm
    rw [hres2]
    exact List.mem_map.mpr ⟨specUserOf db uid dn, specUser_mem_query hmem, rfl⟩
  · unfold get_user_from_token tokenJoinRows
    rw [tokenScan_head db.tokens (by rw [findUserRow, find_user_eq hnd hmem])
      htok huniq]
    simp [specUserOf, joinedBalance_eq]

/-- Witness for C3 at the two-transaction ledger: `alice` is registered, has
token `tokA`, and all three balance reports agree. -/
theorem balance_consistency_witness :
    ((dbTwoTxns.users.map (fun r => r.user_id)).Nodup ∧
      ({ user_id := "alice", display_name := "Alice" } : UserRow) ∈
        dbTwoTxns.users ∧
      ({ user_id := "alice", token := "tokA" } : TokenRow) ∈ dbTwoTxns.tokens ∧
      (∀ tr ∈ dbTwoTxns.tokens, tr.token = "tokA" →
        tr = { user_id := "alice", token := "tokA" })) ∧
    (get_balance_for_user dbTwoTxns "alice" =
        Except.ok (specUserOf dbTwoTxns "alice" "Alice").balance ∧
      (∀ res, get_all_users dbTwoTxns = Except.ok res →
        ("alice", specUserOf dbTwoTxns "alice" "Alice") ∈ res) ∧
      get_user_from_token dbTwoTxns "tokA" =
        Except.ok (some (specUserOf dbTwoTxns "alice" "Alice"))) :=
  ⟨⟨by decide, by decide, by decide, by decide⟩,
    balance_consistency dbTwoTxns "alice" "Alice" "tokA" (by decide) (by decide)
      (by decide) (by decide)⟩

/-- An abstract live connection pool, as produced by `r2d2::Pool::new`. -/
structure PoolHandle where
  seed : Nat
deriving Repr, DecidableEq

/-- An abstract pooled connection, as produced by `db_pool.get()`. -/
structure ConnHandle where
  seed : Nat
deriving Repr, DecidableEq

/-- The `PostgresDatabase` layer handle; only the shared connection pool is
relevant here (the thread pool carries no data the claims depend on). -/
structure PostgresDatabaseHandle where
  db_pool : PoolHandle
deriving Repr, DecidableEq

/-- Rust's `Result::unwrap`: the value on `Ok`, a panic on `Err` — the panic
is modelled as `none`, an outcome that is not a recoverable result value. -/
def unwrapOrPanic (r : Except String PoolHandle) : Option PoolHandle :=
  r.toOption

/-- `with_manager` (postgres.rs lines 30-41): build the pool with
`r2d2::Pool::new(manager)` — whose outcome is the `pool_new` parameter — and
`unwrap()` it before wrapping it in the layer handle. -/
def with_manager (pool_new : Except String PoolHandle) :
    Option PostgresDatabaseHandle :=
  (unwrapOrPanic pool_new).map (fun p => { db_pool := p })

/-- `get_user_by_github_id` (postgres.rs lines 43-68) with its fallible steps
explicit: `pool_get` is the outcome of `db_pool.get()`, `query` the outcome
of executing the SELECT on the acquired connection (rows reduced to their
first-column values).  Each failure is wrapped in its snafu context by the
`?` operator and returned to the caller. -/
def get_user_by_github_id_run (pool_get : Except String ConnHandle)
    (query : ConnHandle → Except String (List String)) :
    Except DatabaseError (Option String) :=
  match pool_get with
  | Except.error e => Except.error (DatabaseError.ConnectionPoolError e)
  | Except.ok conn =>
    match query conn with
    | Except.error e => Except.error (DatabaseError.PostgresError e)
    | Except.ok rows => Except.ok rows.head?

/-- C6 counterexample: constructing the layer does not return pool errors as
recoverable result values — when pool construction fails, `with_manager`
unwraps the error and panics. -/
theorem with_manager_panics_on_pool_error :
    with_manager (Except.error "connection refused") = none ∧
    (with_manager (Except.error "connection refused")).isSome = false :=
  ⟨rfl, rfl⟩

/-- C6 amended: within the public operations every pool or query failure is
returned as a recoverable result value wrapping the source error verbatim
(never swallowed or retried), and a successful run returns the query's
result; constructing the layer is the exception — `with_manager` returns a
handle only on pool-creation success and panics on failure. -/
theorem error_propagation :
    (∀ (e : String) (query : ConnHandle → Except String (List String)),
      get_user_by_github_id_run (Except.error e) query =
        Except.error (DatabaseError.ConnectionPoolError e)) ∧
    (∀ (conn : ConnHandle) (e : String),
      get_user_by_github_id_run (Except.ok conn) (fun _ => Except.error e) =
        Except.error (DatabaseError.PostgresError e)) ∧
    (∀ (conn : ConnHandle) (rows : List String),
      get_user_by_github_id_run (Except.ok conn) (fun _ => Except.ok rows) =
        Except.ok rows.head?) ∧
    (∀ p : PoolHandle, with_manager (Except.ok p) = some { db_pool := p }) ∧
    (∀ e : String, with_manager (Except.error e) = none) :=
  ⟨fun _ _ => rfl, fun _ _ => rfl, fun _ _ => rfl, fun _ => rfl, fun _ => rfl⟩

end Shaft
